import Mathlib

/-!
Shallow embedding of the returns-computation engine of the
trading-dashboard backend (src/services/investmentCalculator.js and the
weekly-interpolation helpers of the admin routes), together with proofs
of the specification claims about it.

Modelling conventions:
* JS numbers are modelled as exact rationals (ℚ); floating-point drift is
  out of scope.
* Mongo object ids are modelled as natural numbers.
* A calendar date is a pair of a month index (count of calendar months
  since an epoch, as an integer) and a zero-based day inside the month;
  comparison is lexicographic, matching JS `Date` ordering at day
  granularity.
* Mongo collections are modelled as lists in natural (insertion) order;
  the `MonthlyReturn` collection, which has a unique index on `month`,
  is modelled as a map from month index to an optional document.
* A thrown JS exception is modelled as `Except.error`.
-/

set_option maxRecDepth 100000

namespace TradingDashboard

/-- Calendar date at day granularity: `month` is the month index since the
epoch (January of year 0) and `day` the zero-based day inside that month. -/
structure CalDate where
  month : Int
  day : Nat
deriving Repr, DecidableEq

/-- Date comparison `a <= b`, lexicographic on (month, day), as JS `Date`
comparison at day granularity. -/
def CalDate.leb (a b : CalDate) : Bool :=
  decide (a.month < b.month ∨ (a.month = b.month ∧ a.day ≤ b.day))

/-- Leap year test of the Gregorian calendar. -/
def isLeapYear (y : Int) : Bool :=
  (y % 4 == 0 && y % 100 != 0) || y % 400 == 0

/-- Number of days of the month with index `m` (year `m / 12`, month-of-year
`m % 12`). Used to model JS `new Date(year, month + 1, 0)`. -/
def daysInMonth (m : Int) : Nat :=
  let y := m / 12
  match (m % 12).toNat with
  | 0 => 31
  | 1 => if isLeapYear y then 29 else 28
  | 2 => 31
  | 3 => 30
  | 4 => 31
  | 5 => 30
  | 6 => 31
  | 7 => 31
  | 8 => 30
  | 9 => 31
  | 10 => 30
  | _ => 31

/-- JS `new Date(d.getFullYear(), d.getMonth(), 1)` for the month index `m`. -/
def startOfMonthDate (m : Int) : CalDate := ⟨m, 0⟩

/-- JS `new Date(d.getFullYear(), d.getMonth() + 1, 0)` (last day of month
`m`) for the month index `m`. -/
def endOfMonthDate (m : Int) : CalDate := ⟨m, daysInMonth m - 1⟩

/-- Transaction type of an Investment ledger entry (`type` enum of
src/models/Investment.js). -/
inductive TxType where
  | deposit
  | withdrawal
deriving Repr, DecidableEq, BEq

/-- Status of an Investment ledger entry (`status` enum of
src/models/Investment.js). -/
inductive TxStatus where
  | active
  | cancelled
deriving Repr, DecidableEq, BEq

/-- Status of a PlatformInvestment (`status` enum of
src/models/PlatformInvestment.js). -/
inductive PStatus where
  | active
  | closed
deriving Repr, DecidableEq, BEq

/-- An Investment ledger entry (src/models/Investment.js). Fields not read
by the calculator (edit history, timestamps) are omitted. -/
structure Investment where
  clientId : Nat
  amount : ℚ
  type : TxType
  investmentDate : CalDate
  status : TxStatus
deriving Repr, DecidableEq

/-- A client document of the User collection, as far as the calculator
reads it (`_id` and `name` via `.populate(\x7bclientId\x7d)`). -/
structure Client where
  id : Nat
  name : String
deriving Repr, DecidableEq

/-- A PlatformInvestment document (src/models/PlatformInvestment.js). -/
structure PlatformInvestment where
  id : Nat
  platformName : String
  amount : ℚ
  investmentDate : CalDate
  returnPercentage : ℚ
  currentValue : ℚ
  status : PStatus
deriving Repr, DecidableEq

/-- One element of `clientReturns` of a MonthlyReturn document
(src/models/MonthlyReturn.js). -/
structure ClientReturn where
  clientId : Nat
  investmentShare : ℚ
  sharePercentage : ℚ
  returnAmount : ℚ
  closingBalance : ℚ
deriving Repr, DecidableEq

/-- One element of `platformReturns` of a MonthlyReturn document: the
per-platform record built by `getPlatformReturns`. -/
structure PlatformReturnEntry where
  platformId : Nat
  platformName : String
  returnPercentage : ℚ
  currentValue : ℚ
deriving Repr, DecidableEq

/-- A MonthlyReturn document (src/models/MonthlyReturn.js); `month` is the
first-of-month key, stored as its month index. -/
structure MonthlyReturn where
  month : Int
  totalCorpus : ℚ
  totalPlatformValue : ℚ
  monthlyReturnPercentage : ℚ
  clientReturns : List ClientReturn
  platformReturns : List PlatformReturnEntry
  calculatedAt : CalDate
deriving Repr, DecidableEq

/-- The persistent state read and written by the calculator: the Investment
ledger, the User (client) collection, the PlatformInvestment collection and
the MonthlyReturn collection (the latter keyed by its unique `month`
index). -/
structure DB where
  investments : List Investment
  clients : List Client
  platforms : List PlatformInvestment
  monthlyReturns : Int → Option MonthlyReturn

/-- Decidable equality for `Except`, used to evaluate the embedded
operations on concrete inputs. -/
instance {ε α : Type} [DecidableEq ε] [DecidableEq α] : DecidableEq (Except ε α) := fun a b =>
  match a, b with
  | Except.error e, Except.error f => decidable_of_iff (e = f) (by simp)
  | Except.error _, Except.ok _ => isFalse (by simp)
  | Except.ok _, Except.error _ => isFalse (by simp)
  | Except.ok x, Except.ok y => decidable_of_iff (x = y) (by simp)

/- ### Corpus resolver (`getCorpusAtDate`) -/

/-- Signed amount of a ledger entry:
`inv.type === 'withdrawal' ? -inv.amount : inv.amount`. -/
def signedAmount (inv : Investment) : ℚ :=
  match inv.type with
  | TxType.withdrawal => -inv.amount
  | TxType.deposit => inv.amount

/-- The Mongo query of `getCorpusAtDate`:
`Investment.find(\x7binvestmentDate: \x7b$lte: date\x7d, status: 'active'\x7d)`. -/
def activeInvestmentsUpTo (invs : List Investment) (date : CalDate) : List Investment :=
  invs.filter (fun inv => CalDate.leb inv.investmentDate date && inv.status == TxStatus.active)

/-- `.populate(\x7bclientId\x7d)`: resolve a client reference against the User
collection; `none` models Mongoose resolving a dangling reference to
`null`. -/
def findClient (clients : List Client) (cid : Nat) : Option Client :=
  clients.find? (fun c => c.id == cid)

/-- An entry of the `clientInvestments` accumulator object of
`getCorpusAtDate` (and, once `sharePercentage` has been filled in by the
second pass, an element of the returned `clientShares`). -/
structure ClientShare where
  clientId : Nat
  clientName : String
  totalInvestment : ℚ
  sharePercentage : ℚ
deriving Repr, DecidableEq

/-- One `clientInvestments[clientId].totalInvestment += amount` step: update
the first entry with this client id in place, or append a fresh entry (JS
objects with string keys preserve insertion order). A fresh entry starts
from `totalInvestment = 0`, so it receives exactly `amt`; `sharePercentage`
is filled in later and starts at 0. -/
def updateShares (shares : List ClientShare) (cid : Nat) (cname : String) (amt : ℚ) :
    List ClientShare :=
  match shares with
  | [] => [⟨cid, cname, amt, 0⟩]
  | s :: rest =>
    if s.clientId = cid then
      { s with totalInvestment := s.totalInvestment + amt } :: rest
    else
      s :: updateShares rest cid cname amt

/-- The `investments.forEach` loop of `getCorpusAtDate`, threading the
`clientInvestments` accumulator and `totalCorpus`. Reading
`inv.clientId._id` when the populated client is `null` throws a JS
`TypeError`, modelled as `Except.error`. -/
def corpusFold (clients : List Client) :
    List Investment → List ClientShare → ℚ → Except String (List ClientShare × ℚ)
  | [], shares, total => Except.ok (shares, total)
  | inv :: rest, shares, total =>
    match findClient clients inv.clientId with
    | none => Except.error "TypeError: Cannot read properties of null (reading _id)"
    | some c =>
      let amount := signedAmount inv
      corpusFold clients rest (updateShares shares inv.clientId c.name amount) (total + amount)

/-- Rounding to two decimal places:
`parseFloat(x.toFixed(2))`, modelled exactly at the rational level
(ECMAScript `toFixed` picks the closest multiple of 1/100, the larger one
on ties, i.e. round half toward +infinity). -/
def round2 (q : ℚ) : ℚ := (⌊q * 100 + 1 / 2⌋ : ℚ) / 100

/-- The second pass of `getCorpusAtDate`: fill in `sharePercentage`,
handling the zero-corpus case. -/
def applyShare (totalCorpus : ℚ) (s : ClientShare) : ClientShare :=
  if totalCorpus = 0 then
    { s with sharePercentage := 0 }
  else
    { s with sharePercentage := round2 (s.totalInvestment / totalCorpus * 100) }

/-- Result shape of `getCorpusAtDate`. -/
structure CorpusData where
  totalCorpus : ℚ
  clientShares : List ClientShare
deriving Repr, DecidableEq

/-- `InvestmentCalculator.getCorpusAtDate(date)`: select active
transactions up to `date`, aggregate signed amounts per client and in
total, then compute share percentages. (`totalCorpus || 0` of the source is
the identity on exact rationals and is not modelled separately.) -/
def getCorpusAtDate (db : DB) (date : CalDate) : Except String CorpusData :=
  let investments := activeInvestmentsUpTo db.investments date
  match corpusFold db.clients investments [] 0 with
  | Except.error e => Except.error e
  | Except.ok (shares, total) =>
    Except.ok ⟨total, shares.map (applyShare total)⟩

/- ### Platform return aggregation (`getPlatformReturns`,
`calculateWeightedReturn`) -/

/-- Result shape of `getPlatformReturns`. -/
structure PlatformReturnsData where
  totalValue : ℚ
  platforms : List PlatformReturnEntry
deriving Repr, DecidableEq

/-- The Mongo query of `getPlatformReturns`:
`PlatformInvestment.find(\x7binvestmentDate: \x7b$lte: endDate\x7d, status: 'active'\x7d)`. -/
def activePlatformsUpTo (platforms : List PlatformInvestment) (endDate : CalDate) :
    List PlatformInvestment :=
  platforms.filter (fun p => CalDate.leb p.investmentDate endDate && p.status == PStatus.active)

/-- `InvestmentCalculator.getPlatformReturns(startDate, endDate)`: the
`startDate` argument is accepted but never read by the source. `totalValue`
accumulates `platform.currentValue` over the selected platforms while the
per-platform records are built. -/
def getPlatformReturns (db : DB) (_startDate endDate : CalDate) : PlatformReturnsData :=
  let platforms := activePlatformsUpTo db.platforms endDate
  { totalValue := platforms.foldl (fun acc p => acc + p.currentValue) 0,
    platforms := platforms.map (fun p =>
      ⟨p.id, p.platformName, p.returnPercentage, p.currentValue⟩) }

/-- `InvestmentCalculator.calculateWeightedReturn(platformReturns)`. The
source guard `!platformReturns.totalValue || platformReturns.totalValue === 0`
is `totalValue = 0` on exact rationals, and `platform.returnPercentage || 0`
is the identity because the schema stores a number (default 0). -/
def calculateWeightedReturn (pr : PlatformReturnsData) : ℚ :=
  if pr.totalValue = 0 then 0
  else
    pr.platforms.foldl
      (fun acc p => acc + p.returnPercentage * (p.currentValue / pr.totalValue)) 0

/- ### Client returns and the monthly snapshot -/

/-- `InvestmentCalculator.getPreviousClosingBalance(clientId, date)`: look
up the MonthlyReturn document keyed by the first of the previous month and
return the client's stored `closingBalance`, or 0 when the document or the
client entry is missing. (The source query also filters on
`clientReturns.clientId`; since `month` is a unique key this is equivalent
to looking the month up and searching its `clientReturns`.) -/
def getPreviousClosingBalance (db : DB) (clientId : Nat) (date : CalDate) : ℚ :=
  match db.monthlyReturns (date.month - 1) with
  | none => 0
  | some mr =>
    match mr.clientReturns.find? (fun cr => cr.clientId == clientId) with
    | none => 0
    | some cr => cr.closingBalance

/-- `InvestmentCalculator.calculateClientReturns(corpusData, returnPercentage, date)`:
the JS for-loop pushing one record per client share, as a map. The previous
month's closing balance is fetched into `previousBalance` but never used
afterwards, exactly as in the source. -/
def calculateClientReturns (db : DB) (corpusData : CorpusData) (returnPercentage : ℚ)
    (date : CalDate) : List ClientReturn :=
  corpusData.clientShares.map (fun clientShare =>
    let _previousBalance := getPreviousClosingBalance db clientShare.clientId date
    let currentInvestment := clientShare.totalInvestment
    let returnAmount := currentInvestment * (returnPercentage / 100)
    let closingBalance := currentInvestment + returnAmount
    { clientId := clientShare.clientId
      investmentShare := currentInvestment
      sharePercentage := clientShare.sharePercentage
      returnAmount := returnAmount
      closingBalance := closingBalance })

/-- The pure part of `InvestmentCalculator.calculateMonthlyReturns(monthDate)`:
everything before the upsert. `now` is the value of `new Date()` used for
`calculatedAt`. -/
def computeSnapshot (db : DB) (monthDate : CalDate) (now : CalDate) :
    Except String MonthlyReturn :=
  let startOfMonth := startOfMonthDate monthDate.month
  let endOfMonth := endOfMonthDate monthDate.month
  match getCorpusAtDate db endOfMonth with
  | Except.error e => Except.error e
  | Except.ok corpusData =>
    let platformReturns := getPlatformReturns db startOfMonth endOfMonth
    let totalReturnPercentage := calculateWeightedReturn platformReturns
    let clientReturns := calculateClientReturns db corpusData totalReturnPercentage endOfMonth
    Except.ok
      { month := monthDate.month
        totalCorpus := corpusData.totalCorpus
        totalPlatformValue := platformReturns.totalValue
        monthlyReturnPercentage := totalReturnPercentage
        clientReturns := clientReturns
        platformReturns := platformReturns.platforms
        calculatedAt := now }

/-- The document `computeSnapshot` produces when the corpus resolves to
`c`: spelled out once so proofs can name it. -/
def snapshotFor (db : DB) (monthDate now : CalDate) (c : CorpusData) : MonthlyReturn :=
  let pr := getPlatformReturns db (startOfMonthDate monthDate.month)
    (endOfMonthDate monthDate.month)
  let pct := calculateWeightedReturn pr
  { month := monthDate.month
    totalCorpus := c.totalCorpus
    totalPlatformValue := pr.totalValue
    monthlyReturnPercentage := pct
    clientReturns := calculateClientReturns db c pct (endOfMonthDate monthDate.month)
    platformReturns := pr.platforms
    calculatedAt := now }

/-- `MonthlyReturn.findOneAndUpdate(\x7bmonth\x7d, ..., \x7bupsert: true\x7d)`: replace
the document stored under the month key. -/
def upsertMonthly (store : Int → Option MonthlyReturn) (key : Int) (doc : MonthlyReturn) :
    Int → Option MonthlyReturn :=
  fun k => if k = key then some doc else store k

/-- `InvestmentCalculator.calculateMonthlyReturns(monthDate)`: compute the
snapshot and upsert it keyed by the first of the month. -/
def calculateMonthlyReturns (db : DB) (monthDate : CalDate) (now : CalDate) :
    Except String DB :=
  match computeSnapshot db monthDate now with
  | Except.error e => Except.error e
  | Except.ok snap =>
    Except.ok { db with monthlyReturns := upsertMonthly db.monthlyReturns monthDate.month snap }

/-- The JS call
`InvestmentCalculator.calculateMonthlyReturns(monthDate, monthlyReturn)` of
the `/monthly-returns/calculate-from-weekly` route: the callee declares a
single parameter, so JavaScript silently discards the second argument. -/
def calculateMonthlyReturnsCall2 (db : DB) (monthDate : CalDate)
    (_precomputedReturnPct : ℚ) (now : CalDate) : Except String DB :=
  calculateMonthlyReturns db monthDate now

/- ### Recalculation cascade (`getMonthsFromDate`, `recalculateFromDate`) -/

/-- The while-loop of `InvestmentCalculator.getMonthsFromDate`: starting at
the first of `current`'s month, push a copy of `current` and step one month
while `current <= now`. -/
def getMonthsLoop (current : Int) (now : CalDate) : List Int :=
  if h : CalDate.leb ⟨current, 0⟩ now = true then
    current :: getMonthsLoop (current + 1) now
  else
    []
termination_by (now.month + 1 - current).toNat
decreasing_by
  simp only [CalDate.leb, decide_eq_true_eq] at h
  omega

/-- `InvestmentCalculator.getMonthsFromDate(fromDate)`: all first-of-month
dates from `fromDate`'s month while they do not exceed `now`, each
represented by its month index. -/
def getMonthsFromDate (fromDate now : CalDate) : List Int :=
  getMonthsLoop fromDate.month now

/-- The for-loop of `recalculateFromDate`: run `calculateMonthlyReturns`
for each month, in list order, threading the store; an exception aborts the
loop. -/
def runMonths (db : DB) (months : List Int) (now : CalDate) : Except String DB :=
  match months with
  | [] => Except.ok db
  | m :: rest =>
    match calculateMonthlyReturns db ⟨m, 0⟩ now with
    | Except.error e => Except.error e
    | Except.ok db2 => runMonths db2 rest now

/-- Result shape of `recalculateFromDate`. -/
structure RecalcResult where
  success : Bool
  monthsRecalculated : Nat
deriving Repr, DecidableEq

/-- `InvestmentCalculator.recalculateFromDate(fromDate)`: enumerate the
months, run the monthly calculation for each in order, and report how many
months were enumerated. -/
def recalculateFromDate (db : DB) (fromDate now : CalDate) :
    Except String (DB × RecalcResult) :=
  let months := getMonthsFromDate fromDate now
  match runMonths db months now with
  | Except.error e => Except.error e
  | Except.ok db2 => Except.ok (db2, ⟨true, months.length⟩)

/- ### Weekly interpolation (`interpolateMissingWeeks` of the admin routes) -/

/-- A WeeklyPlatformData document (src/models/WeeklyPlatformData.js).
Dates are day numbers (integers). The pure bookkeeping fields `weekNumber`
and `year` (filled from `getWeekNumber(currentWeek)` and
`currentWeek.getFullYear()`) are omitted: no claim concerns them and they
feed into no computation. -/
structure WeekRow where
  platformId : Nat
  weekStartDate : Int
  weekEndDate : Int
  openingValue : ℚ
  closingValue : ℚ
  weeklyReturn : ℚ
  profitAmount : ℚ
  isInterpolated : Bool
  enteredBy : Option Nat
  notes : Option String
deriving Repr, DecidableEq

/-- `Math.ceil(delta / (7 * 24 * 60 * 60 * 1000))` for a difference of
`delta` days: the ceiling of `delta / 7`. -/
def ceilWeeks (delta : Int) : Int := -((-delta) / 7)

/-- `WeeklyPlatformData.findOne(...).sort(s)` for a descending
`weekEndDate` sort: the first row carrying the maximal `weekEndDate`. -/
def argmaxWeekEnd (rows : List WeekRow) : Option WeekRow :=
  rows.foldl
    (fun best r =>
      match best with
      | none => some r
      | some b => if b.weekEndDate < r.weekEndDate then some r else some b)
    none

/-- `WeeklyPlatformData.findOne(...).sort(s)` for an ascending
`weekStartDate` sort: the first row carrying the minimal `weekStartDate`. -/
def argminWeekStart (rows : List WeekRow) : Option WeekRow :=
  rows.foldl
    (fun best r =>
      match best with
      | none => some r
      | some b => if r.weekStartDate < b.weekStartDate then some r else some b)
    none

/-- The `before` query of `interpolateMissingWeeks`: the platform's stored
row with the greatest `weekEndDate` strictly before the current week. -/
def findBefore (store : List WeekRow) (pid : Nat) (currentWeek : Int) : Option WeekRow :=
  argmaxWeekEnd
    (store.filter (fun w => w.platformId == pid && decide (w.weekEndDate < currentWeek)))

/-- The `after` query of `interpolateMissingWeeks`: the platform's stored
row with the least `weekStartDate` strictly after the current week. -/
def findAfter (store : List WeekRow) (pid : Nat) (currentWeek : Int) : Option WeekRow :=
  argminWeekStart
    (store.filter (fun w => w.platformId == pid && decide (currentWeek < w.weekStartDate)))

/-- The interpolated row `WeeklyPlatformData.create(...)` builds for the
current week from the two bounding rows. The create call passes no
`enteredBy`, so the stored row has none. -/
def interpolatedRow (pid : Nat) (currentWeek : Int) (before after : WeekRow) : WeekRow :=
  let weeksBetween := ceilWeeks (after.weekStartDate - before.weekEndDate)
  let valueChange := after.openingValue - before.closingValue
  let changePerWeek := valueChange / (weeksBetween : ℚ)
  let interpolatedValue := before.closingValue + changePerWeek
  { platformId := pid
    weekStartDate := currentWeek
    weekEndDate := currentWeek + 6
    openingValue := before.closingValue
    closingValue := interpolatedValue
    weeklyReturn := (interpolatedValue - before.closingValue) / before.closingValue * 100
    profitAmount := interpolatedValue - before.closingValue
    isInterpolated := true
    enteredBy := none
    notes := some "Auto-interpolated" }

/-- One iteration of the while-loop of `interpolateMissingWeeks` for one
platform: if the current week has no row in `existingWeeks` (the list
fetched once before the loop) and both a `before` and an `after` row exist
in the live store, create the interpolated row; otherwise leave the store
unchanged. -/
def interpStep (store : List WeekRow) (existingWeeks : List WeekRow) (pid : Nat)
    (currentWeek : Int) : List WeekRow :=
  let weekExists := existingWeeks.any (fun w => w.weekStartDate == currentWeek)
  if weekExists then store
  else
    match findBefore store pid currentWeek, findAfter store pid currentWeek with
    | some before, some after => store ++ [interpolatedRow pid currentWeek before after]
    | _, _ => store

/-- The while-loop of `interpolateMissingWeeks` for one platform: walk from
`startDate` to `endDate` in 7-day strides. -/
def interpWalk (store : List WeekRow) (existingWeeks : List WeekRow) (pid : Nat)
    (currentWeek endDate : Int) : List WeekRow :=
  if h : currentWeek ≤ endDate then
    interpWalk (interpStep store existingWeeks pid currentWeek) existingWeeks pid
      (currentWeek + 7) endDate
  else
    store
termination_by (endDate + 1 - currentWeek).toNat
decreasing_by omega

/-- The body of `interpolateMissingWeeks` for one platform: fetch the
platform's rows in range once, then walk the range. -/
def interpolatePlatform (store : List WeekRow) (pid : Nat) (startDate endDate : Int) :
    List WeekRow :=
  let existingWeeks := store.filter (fun w =>
    w.platformId == pid && decide (startDate ≤ w.weekStartDate) &&
      decide (w.weekStartDate ≤ endDate))
  interpWalk store existingWeeks pid startDate endDate

/-- `interpolateMissingWeeks(startDate, endDate)`: run the per-platform
walk for every active platform. -/
def interpolateMissingWeeks (store : List WeekRow) (platforms : List PlatformInvestment)
    (startDate endDate : Int) : List WeekRow :=
  (platforms.filter (fun p => p.status == PStatus.active)).foldl
    (fun s p => interpolatePlatform s p.id startDate endDate) store

/- ### Measures used by the theorem statements -/

/-- Sum of `totalInvestment` over a share list. -/
def shareTotalSum (shares : List ClientShare) : ℚ :=
  (shares.map ClientShare.totalInvestment).sum

/-- Sum of `totalInvestment` over the entries of one client. -/
def clientBucketSum (shares : List ClientShare) (cid : Nat) : ℚ :=
  ((shares.filter (fun s => s.clientId == cid)).map ClientShare.totalInvestment).sum

/-- Sum of signed amounts over a transaction list. -/
def amountSum (invs : List Investment) : ℚ := (invs.map signedAmount).sum

/-- Sum of signed amounts over one client's transactions. -/
def clientAmountSum (invs : List Investment) (cid : Nat) : ℚ :=
  ((invs.filter (fun i => i.clientId == cid)).map signedAmount).sum

/- ### Concrete fixtures used to witness the theorems on explicit inputs -/

/-- A small concrete state: two clients, three active transactions (one a
withdrawal), one cancelled transaction, and two active platforms. -/
def dbW : DB :=
  { investments :=
      [⟨1, 600, TxType.deposit, ⟨0, 5⟩, TxStatus.active⟩,
       ⟨2, 500, TxType.deposit, ⟨0, 10⟩, TxStatus.active⟩,
       ⟨1, 100, TxType.withdrawal, ⟨1, 3⟩, TxStatus.active⟩,
       ⟨2, 50, TxType.deposit, ⟨2, 1⟩, TxStatus.cancelled⟩]
    clients := [⟨1, "Alice"⟩, ⟨2, "Bob"⟩]
    platforms :=
      [⟨1, "Zerodha", 1000, ⟨0, 2⟩, 5, 800, PStatus.active⟩,
       ⟨2, "Binance", 500, ⟨0, 4⟩, 10, 200, PStatus.active⟩]
    monthlyReturns := fun _ => none }

/-- A state whose single transaction references client id 7, which does not
exist in the client collection. -/
def dbBadRef : DB :=
  { investments := [⟨7, 100, TxType.deposit, ⟨0, 2⟩, TxStatus.active⟩]
    clients := []
    platforms := []
    monthlyReturns := fun _ => none }

/-- The weekly store of the gap-fill scenario: platform 1 has week 1
(days 0-6) closing at 100 and week 4 (days 21-27) opening at 130; weeks 2
and 3 are missing. -/
def scenStore : List WeekRow :=
  [⟨1, 0, 6, 100, 100, 0, 0, false, some 9, none⟩,
   ⟨1, 21, 27, 130, 130, 0, 0, false, some 9, none⟩]

/- ### Lemmas about the corpus accumulator -/

lemma shareTotalSum_nil : shareTotalSum [] = 0 := rfl

lemma shareTotalSum_cons (s : ClientShare) (rest : List ClientShare) :
    shareTotalSum (s :: rest) = s.totalInvestment + shareTotalSum rest := by
  simp [shareTotalSum]

lemma shareTotalSum_updateShares (shares : List ClientShare) (cid : Nat) (cname : String)
    (amt : ℚ) :
    shareTotalSum (updateShares shares cid cname amt) = shareTotalSum shares + amt := by
  induction shares with
  | nil => simp [updateShares, shareTotalSum]
  | cons s rest ih =>
    by_cases h : s.clientId = cid
    · simp [updateShares, h, shareTotalSum_cons]
      ring
    · simp only [updateShares, if_neg h, shareTotalSum_cons, ih]
      ring

lemma clientBucketSum_nil (cid : Nat) : clientBucketSum [] cid = 0 := rfl

lemma clientBucketSum_cons (s : ClientShare) (rest : List ClientShare) (cid : Nat) :
    clientBucketSum (s :: rest) cid =
      (if s.clientId = cid then s.totalInvestment else 0) + clientBucketSum rest cid := by
  by_cases h : s.clientId = cid <;>
    simp [clientBucketSum, List.filter_cons, h]

lemma clientBucketSum_updateShares (shares : List ClientShare) (cid : Nat) (cname : String)
    (amt : ℚ) (cid2 : Nat) :
    clientBucketSum (updateShares shares cid cname amt) cid2 =
      clientBucketSum shares cid2 + if cid2 = cid then amt else 0 := by
  induction shares with
  | nil =>
    show clientBucketSum [⟨cid, cname, amt, 0⟩] cid2 = _
    rw [clientBucketSum_cons, clientBucketSum_nil]
    dsimp only
    by_cases hc : cid = cid2
    · rw [if_pos hc, if_pos hc.symm]
      ring
    · rw [if_neg hc, if_neg (fun hx => hc hx.symm)]
  | cons s rest ih =>
    by_cases h : s.clientId = cid
    · subst h
      have hu : updateShares (s :: rest) s.clientId cname amt =
          { s with totalInvestment := s.totalInvestment + amt } :: rest := by
        simp [updateShares]
      rw [hu, clientBucketSum_cons, clientBucketSum_cons]
      dsimp only
      by_cases hc : s.clientId = cid2
      · rw [if_pos hc, if_pos hc, if_pos hc.symm]
        ring
      · rw [if_neg hc, if_neg hc, if_neg (fun hx => hc hx.symm)]
        ring
    · have hu : updateShares (s :: rest) cid cname amt =
          s :: updateShares rest cid cname amt := by
        simp [updateShares, h]
      rw [hu, clientBucketSum_cons, clientBucketSum_cons, ih]
      ring

lemma ids_updateShares (shares : List ClientShare) (cid : Nat) (cname : String) (amt : ℚ) :
    (updateShares shares cid cname amt).map ClientShare.clientId =
      if cid ∈ shares.map ClientShare.clientId then shares.map ClientShare.clientId
      else shares.map ClientShare.clientId ++ [cid] := by
  induction shares with
  | nil => simp [updateShares]
  | cons s rest ih =>
    by_cases h : s.clientId = cid
    · simp [updateShares, h]
    · have hu : updateShares (s :: rest) cid cname amt =
          s :: updateShares rest cid cname amt := by
        simp [updateShares, h]
      rw [hu, List.map_cons, List.map_cons, ih]
      by_cases hm : cid ∈ rest.map ClientShare.clientId
      · rw [if_pos hm, if_pos (by simp [hm])]
      · rw [if_neg hm, if_neg (by
          simp only [List.mem_cons]
          rintro (hx | hx)
          · exact h hx.symm
          · exact hm hx), List.cons_append]

lemma nodup_updateShares (shares : List ClientShare) (cid : Nat) (cname : String) (amt : ℚ)
    (h : (shares.map ClientShare.clientId).Nodup) :
    ((updateShares shares cid cname amt).map ClientShare.clientId).Nodup := by
  rw [ids_updateShares]
  by_cases hm : cid ∈ shares.map ClientShare.clientId
  · rwa [if_pos hm]
  · rw [if_neg hm]
    simp [List.nodup_append, h, hm]

lemma amountSum_nil : amountSum [] = 0 := rfl

lemma amountSum_cons (inv : Investment) (rest : List Investment) :
    amountSum (inv :: rest) = signedAmount inv + amountSum rest := by
  simp [amountSum]

lemma clientAmountSum_nil (cid : Nat) : clientAmountSum [] cid = 0 := rfl

lemma clientAmountSum_cons (inv : Investment) (rest : List Investment) (cid : Nat) :
    clientAmountSum (inv :: rest) cid =
      (if inv.clientId = cid then signedAmount inv else 0) + clientAmountSum rest cid := by
  by_cases h : inv.clientId = cid <;>
    simp [clientAmountSum, List.filter_cons, h]

/-- Main invariant of the `forEach` accumulation loop of `getCorpusAtDate`:
when every selected transaction's client reference resolves, the loop
succeeds, the running total grows by the sum of signed amounts, each
client's bucket grows by that client's signed amounts, and distinctness of
the accumulator's client ids is preserved. -/
lemma corpusFold_ok_of_found (clients : List Client) (invs : List Investment) :
    ∀ (shares : List ClientShare) (total : ℚ),
    (∀ inv ∈ invs, (findClient clients inv.clientId).isSome = true) →
    ∃ shares2,
      corpusFold clients invs shares total = Except.ok (shares2, total + amountSum invs) ∧
      shareTotalSum shares2 = shareTotalSum shares + amountSum invs ∧
      (∀ cid, clientBucketSum shares2 cid =
        clientBucketSum shares cid + clientAmountSum invs cid) ∧
      ((shares.map ClientShare.clientId).Nodup → (shares2.map ClientShare.clientId).Nodup) := by
  induction invs with
  | nil =>
    intro shares total _
    refine ⟨shares, ?_, ?_, ?_, id⟩
    · simp [corpusFold, amountSum_nil]
    · simp [amountSum_nil]
    · intro cid
      simp [clientAmountSum_nil]
  | cons inv rest ih =>
    intro shares total h
    obtain ⟨c, hc⟩ := Option.isSome_iff_exists.mp (h inv (List.mem_cons_self inv rest))
    obtain ⟨shares2, heq, hsum, hbucket, hnodup⟩ :=
      ih (updateShares shares inv.clientId c.name (signedAmount inv)) (total + signedAmount inv)
        (fun i hi => h i (List.mem_cons_of_mem inv hi))
    refine ⟨shares2, ?_, ?_, ?_, ?_⟩
    · have hstep : corpusFold clients (inv :: rest) shares total =
          corpusFold clients rest (updateShares shares inv.clientId c.name (signedAmount inv))
            (total + signedAmount inv) := by
        simp [corpusFold, hc]
      rw [hstep, heq, amountSum_cons]
      norm_num [add_assoc]
    · rw [hsum, shareTotalSum_updateShares, amountSum_cons]
      ring
    · intro cid
      rw [hbucket cid, clientBucketSum_updateShares, clientAmountSum_cons]
      by_cases hcid : inv.clientId = cid
      · rw [if_pos hcid, if_pos hcid.symm]
        ring
      · rw [if_neg hcid, if_neg (fun hx => hcid hx.symm)]
        ring
    · exact fun hd => hnodup (nodup_updateShares shares inv.clientId c.name (signedAmount inv) hd)

/-- The loop maintains `shareTotalSum - total` even without any
well-formedness assumption: whenever it succeeds, the sum of per-client
totals and the grand total have moved in lockstep. -/
lemma corpusFold_sum_invariant (clients : List Client) (invs : List Investment) :
    ∀ (shares : List ClientShare) (total : ℚ) (shares2 : List ClientShare) (total2 : ℚ),
    corpusFold clients invs shares total = Except.ok (shares2, total2) →
    shareTotalSum shares2 - total2 = shareTotalSum shares - total := by
  induction invs with
  | nil =>
    intro shares total shares2 total2 h
    simp only [corpusFold, Except.ok.injEq, Prod.mk.injEq] at h
    rw [h.1, h.2]
  | cons inv rest ih =>
    intro shares total shares2 total2 h
    cases hc : findClient clients inv.clientId with
    | none => simp [corpusFold, hc] at h
    | some c =>
      have hstep : corpusFold clients (inv :: rest) shares total =
          corpusFold clients rest (updateShares shares inv.clientId c.name (signedAmount inv))
            (total + signedAmount inv) := by
        simp [corpusFold, hc]
      rw [hstep] at h
      have := ih _ _ _ _ h
      rw [this, shareTotalSum_updateShares]
      ring

/-- When some selected transaction's client reference does not resolve, the
loop throws. -/
lemma corpusFold_error_of_missing (clients : List Client) (invs : List Investment) :
    ∀ (shares : List ClientShare) (total : ℚ),
    (∃ inv ∈ invs, findClient clients inv.clientId = none) →
    ∃ e, corpusFold clients invs shares total = Except.error e := by
  induction invs with
  | nil =>
    intro _ _ h
    simp at h
  | cons inv rest ih =>
    intro shares total h
    cases hc : findClient clients inv.clientId with
    | none =>
      exact ⟨"TypeError: Cannot read properties of null (reading _id)",
        by simp [corpusFold, hc]⟩
    | some c =>
      have hrest : ∃ i ∈ rest, findClient clients i.clientId = none := by
        obtain ⟨i, hi, hnone⟩ := h
        rcases List.mem_cons.mp hi with rfl | hi2
        · rw [hc] at hnone
          exact absurd hnone (by simp)
        · exact ⟨i, hi2, hnone⟩
      obtain ⟨e, he⟩ := ih (updateShares shares inv.clientId c.name (signedAmount inv))
        (total + signedAmount inv) hrest
      refine ⟨e, ?_⟩
      have hstep : corpusFold clients (inv :: rest) shares total =
          corpusFold clients rest (updateShares shares inv.clientId c.name (signedAmount inv))
            (total + signedAmount inv) := by
        simp [corpusFold, hc]
      rw [hstep, he]

lemma applyShare_clientId (t : ℚ) (s : ClientShare) : (applyShare t s).clientId = s.clientId := by
  unfold applyShare
  split <;> rfl

lemma applyShare_totalInvestment (t : ℚ) (s : ClientShare) :
    (applyShare t s).totalInvestment = s.totalInvestment := by
  unfold applyShare
  split <;> rfl

lemma applyShare_sharePercentage (t : ℚ) (s : ClientShare) :
    (applyShare t s).sharePercentage =
      if t = 0 then 0 else round2 (s.totalInvestment / t * 100) := by
  unfold applyShare
  split <;> simp_all

lemma shareTotalSum_map_applyShare (t : ℚ) (shares : List ClientShare) :
    shareTotalSum (shares.map (applyShare t)) = shareTotalSum shares := by
  induction shares with
  | nil => rfl
  | cons s rest ih =>
    rw [List.map_cons, shareTotalSum_cons, shareTotalSum_cons, ih, applyShare_totalInvestment]

lemma clientBucketSum_map_applyShare (t : ℚ) (shares : List ClientShare) (cid : Nat) :
    clientBucketSum (shares.map (applyShare t)) cid = clientBucketSum shares cid := by
  induction shares with
  | nil => rfl
  | cons s rest ih =>
    rw [List.map_cons, clientBucketSum_cons, clientBucketSum_cons, ih,
      applyShare_clientId, applyShare_totalInvestment]

lemma ids_map_applyShare (t : ℚ) (shares : List ClientShare) :
    (shares.map (applyShare t)).map ClientShare.clientId =
      shares.map ClientShare.clientId := by
  rw [List.map_map]
  exact List.map_congr_left (fun s _ => applyShare_clientId t s)

/-- Specification of `getCorpusAtDate` in the success case: when every
selected transaction's client reference resolves, the call returns a corpus
whose total is the signed sum over the selected transactions, whose
per-client totals are each client's signed sums, whose client ids are
distinct, and whose share percentages follow the rounded-ratio formula with
the zero-corpus guard. -/
lemma getCorpusAtDate_spec (db : DB) (d : CalDate)
    (h : ∀ inv ∈ activeInvestmentsUpTo db.investments d,
      (findClient db.clients inv.clientId).isSome = true) :
    ∃ c, getCorpusAtDate db d = Except.ok c ∧
      c.totalCorpus = amountSum (activeInvestmentsUpTo db.investments d) ∧
      shareTotalSum c.clientShares = c.totalCorpus ∧
      (∀ cid, clientBucketSum c.clientShares cid =
        clientAmountSum (activeInvestmentsUpTo db.investments d) cid) ∧
      (c.clientShares.map ClientShare.clientId).Nodup ∧
      (∀ s ∈ c.clientShares, s.sharePercentage =
        if c.totalCorpus = 0 then 0 else round2 (s.totalInvestment / c.totalCorpus * 100)) := by
  obtain ⟨shares2, heq, hsum, hbucket, hnodup⟩ :=
    corpusFold_ok_of_found db.clients (activeInvestmentsUpTo db.investments d) [] 0 h
  have htot : (0 : ℚ) + amountSum (activeInvestmentsUpTo db.investments d) =
      amountSum (activeInvestmentsUpTo db.investments d) := by ring
  rw [htot] at heq
  set T := amountSum (activeInvestmentsUpTo db.investments d) with hT
  refine ⟨⟨T, shares2.map (applyShare T)⟩, ?_, rfl, ?_, ?_, ?_, ?_⟩
  · simp [getCorpusAtDate, heq]
  · rw [shareTotalSum_map_applyShare, hsum, shareTotalSum_nil]
    ring
  · intro cid
    rw [clientBucketSum_map_applyShare, hbucket cid, clientBucketSum_nil]
    ring
  · rw [ids_map_applyShare]
    exact hnodup (by simp)
  · intro s hs
    obtain ⟨s0, _, rfl⟩ := List.mem_map.mp hs
    rw [applyShare_sharePercentage, applyShare_totalInvestment]

/-- An empty ledger, or one whose transactions are all cancelled, resolves
to a zero corpus with an empty share list. -/
lemma getCorpusAtDate_all_cancelled (db : DB) (d : CalDate)
    (hall : ∀ inv ∈ db.investments, inv.status = TxStatus.cancelled) :
    getCorpusAtDate db d = Except.ok ⟨0, []⟩ := by
  have hfil : activeInvestmentsUpTo db.investments d = [] := by
    unfold activeInvestmentsUpTo
    rw [List.filter_eq_nil_iff]
    intro inv hi
    simp [hall inv hi]
    intro _
    decide
  simp [getCorpusAtDate, hfil, corpusFold]

/- ### Claim theorems -/

/-- C1: for every cutoff date `d`, `getCorpusAtDate` considers exactly the
active transactions with `investmentDate <= d` (hypothesis: their client
references resolve): `totalCorpus` is the sum of their signed amounts
(deposits positive, withdrawals negative); each client appears once and
holds the signed sum of that client's selected transactions; `totalCorpus`
equals the sum of all clients' `totalInvestment`; `sharePercentage` is
`totalInvestment / totalCorpus * 100` rounded to two decimals, or 0 when
`totalCorpus = 0`; and an empty or entirely cancelled ledger yields
`totalCorpus = 0` with an empty share list (a defined rational, never a
NaN/undefined value). -/
theorem corpus_resolution_correct (db : DB) (d : CalDate)
    (h : ∀ inv ∈ activeInvestmentsUpTo db.investments d,
      (findClient db.clients inv.clientId).isSome = true) :
    ∃ c, getCorpusAtDate db d = Except.ok c ∧
      c.totalCorpus = amountSum (activeInvestmentsUpTo db.investments d) ∧
      shareTotalSum c.clientShares = c.totalCorpus ∧
      (∀ cid, clientBucketSum c.clientShares cid =
        clientAmountSum (activeInvestmentsUpTo db.investments d) cid) ∧
      (c.clientShares.map ClientShare.clientId).Nodup ∧
      (∀ s ∈ c.clientShares, s.sharePercentage =
        if c.totalCorpus = 0 then 0 else round2 (s.totalInvestment / c.totalCorpus * 100)) ∧
      ((∀ inv ∈ db.investments, inv.status = TxStatus.cancelled) → c = ⟨0, []⟩) := by
  obtain ⟨c, hc, h1, h2, h3, h4, h5⟩ := getCorpusAtDate_spec db d h
  refine ⟨c, hc, h1, h2, h3, h4, h5, ?_⟩
  intro hall
  have := getCorpusAtDate_all_cancelled db d hall
  rw [hc] at this
  exact (Except.ok.injEq _ _).mp this

/-- Witness for C1 on the concrete state `dbW` at the end of month 1. -/
theorem corpus_resolution_correct_witness :
    ∃ c, getCorpusAtDate dbW ⟨1, 30⟩ = Except.ok c ∧
      c.totalCorpus = amountSum (activeInvestmentsUpTo dbW.investments ⟨1, 30⟩) ∧
      shareTotalSum c.clientShares = c.totalCorpus ∧
      (∀ cid, clientBucketSum c.clientShares cid =
        clientAmountSum (activeInvestmentsUpTo dbW.investments ⟨1, 30⟩) cid) ∧
      (c.clientShares.map ClientShare.clientId).Nodup ∧
      (∀ s ∈ c.clientShares, s.sharePercentage =
        if c.totalCorpus = 0 then 0 else round2 (s.totalInvestment / c.totalCorpus * 100)) ∧
      ((∀ inv ∈ dbW.investments, inv.status = TxStatus.cancelled) → c = ⟨0, []⟩) :=
  corpus_resolution_correct dbW ⟨1, 30⟩ (by decide)

/-- C7 counterexample: on the concrete state `dbBadRef`, whose single
transaction references a client that does not exist, `getCorpusAtDate`
throws (models the JS `TypeError` on `inv.clientId._id`) instead of
skipping the transaction and returning a result. -/
theorem unknown_client_counterexample :
    getCorpusAtDate dbBadRef ⟨0, 5⟩ =
      Except.error "TypeError: Cannot read properties of null (reading _id)" := by
  with_unfolding_all decide

/-- C7 amended: a selected transaction whose `clientId` references no
existing client makes the whole corpus computation fail with an error; the
transaction is not skipped and no result is returned. -/
theorem unknown_client_aborts_corpus (db : DB) (d : CalDate)
    (h : ∃ inv ∈ activeInvestmentsUpTo db.investments d,
      findClient db.clients inv.clientId = none) :
    ∃ e, getCorpusAtDate db d = Except.error e := by
  obtain ⟨e, he⟩ :=
    corpusFold_error_of_missing db.clients (activeInvestmentsUpTo db.investments d) [] 0 h
  exact ⟨e, by simp [getCorpusAtDate, he]⟩

/-- Witness for the amended C7 on the concrete state `dbBadRef`. -/
theorem unknown_client_aborts_corpus_witness :
    ∃ e, getCorpusAtDate dbBadRef ⟨0, 5⟩ = Except.error e :=
  unknown_client_aborts_corpus dbBadRef ⟨0, 5⟩ (by decide)

lemma foldl_add_map {α : Type} (f : α → ℚ) (l : List α) (a : ℚ) :
    l.foldl (fun acc x => acc + f x) a = a + (l.map f).sum := by
  induction l generalizing a with
  | nil => simp
  | cons x rest ih =>
    simp only [List.foldl_cons, List.map_cons, List.sum_cons, ih]
    ring

/-- C5: for every period, `getPlatformReturns` selects exactly the active
platform allocations with `investmentDate <= periodEnd`, its `totalValue`
is the sum of their `currentValue`s, and `calculateWeightedReturn` is the
value-weighted sum of their return percentages, defined as 0 when
`totalValue = 0`. -/
theorem platform_return_aggregation_correct (db : DB) (startDate endDate : CalDate) :
    (getPlatformReturns db startDate endDate).totalValue =
      ((activePlatformsUpTo db.platforms endDate).map PlatformInvestment.currentValue).sum ∧
    (getPlatformReturns db startDate endDate).platforms =
      (activePlatformsUpTo db.platforms endDate).map
        (fun p => ⟨p.id, p.platformName, p.returnPercentage, p.currentValue⟩) ∧
    calculateWeightedReturn (getPlatformReturns db startDate endDate) =
      (if (getPlatformReturns db startDate endDate).totalValue = 0 then 0
       else ((getPlatformReturns db startDate endDate).platforms.map
         (fun p => p.currentValue / (getPlatformReturns db startDate endDate).totalValue *
           p.returnPercentage)).sum) := by
  refine ⟨?_, rfl, ?_⟩
  · show (activePlatformsUpTo db.platforms endDate).foldl (fun acc p => acc + p.currentValue) 0 =
      ((activePlatformsUpTo db.platforms endDate).map PlatformInvestment.currentValue).sum
    rw [foldl_add_map PlatformInvestment.currentValue]
    ring
  · by_cases h0 : (getPlatformReturns db startDate endDate).totalValue = 0
    · unfold calculateWeightedReturn
      rw [if_pos h0, if_pos h0]
    · unfold calculateWeightedReturn
      rw [if_neg h0, if_neg h0, foldl_add_map
        (fun p : PlatformReturnEntry => p.returnPercentage *
          (p.currentValue / (getPlatformReturns db startDate endDate).totalValue)), zero_add]
      congr 1
      apply List.map_congr_left
      intro p _
      ring

/-- Inversion of a successful `getCorpusAtDate` call: the per-client totals
always sum to the grand total (no well-formedness assumption needed). -/
lemma getCorpusAtDate_shareSum (db : DB) (d : CalDate) (c : CorpusData)
    (h : getCorpusAtDate db d = Except.ok c) :
    shareTotalSum c.clientShares = c.totalCorpus := by
  unfold getCorpusAtDate at h
  cases hf : corpusFold db.clients (activeInvestmentsUpTo db.investments d) [] 0 with
  | error e => simp [hf] at h
  | ok p =>
    obtain ⟨shares2, total2⟩ := p
    simp only [hf] at h
    have hinv := corpusFold_sum_invariant db.clients
      (activeInvestmentsUpTo db.investments d) [] 0 shares2 total2 hf
    have hc : c = ⟨total2, shares2.map (applyShare total2)⟩ :=
      ((Except.ok.injEq _ _).mp h).symm
    subst hc
    show shareTotalSum (shares2.map (applyShare total2)) = total2
    rw [shareTotalSum_map_applyShare]
    rw [shareTotalSum_nil] at hinv
    linarith

/-- C4: for every month whose corpus resolves, the persisted client returns
are exactly one record per resolved client share with
`returnAmount = investmentShare * returnPct / 100` and
`closingBalance = investmentShare + returnAmount`, where `investmentShare`
is the client's current-month `totalInvestment` from the corpus resolution;
the previous month's closing balance is fetched but discarded, so the
stored MonthlyReturn documents never influence the result (no compounding
onto prior retained profit). -/
theorem client_return_formula (db : DB) (monthDate now : CalDate) (c : CorpusData)
    (h : getCorpusAtDate db (endOfMonthDate monthDate.month) = Except.ok c) :
    ∃ snap db2,
      computeSnapshot db monthDate now = Except.ok snap ∧
      calculateMonthlyReturns db monthDate now = Except.ok db2 ∧
      db2.monthlyReturns monthDate.month = some snap ∧
      snap.clientReturns = c.clientShares.map (fun cs =>
        { clientId := cs.clientId
          investmentShare := cs.totalInvestment
          sharePercentage := cs.sharePercentage
          returnAmount := cs.totalInvestment * (snap.monthlyReturnPercentage / 100)
          closingBalance :=
            cs.totalInvestment + cs.totalInvestment * (snap.monthlyReturnPercentage / 100) }) ∧
      (∀ cr ∈ snap.clientReturns,
        cr.returnAmount = cr.investmentShare * (snap.monthlyReturnPercentage / 100) ∧
        cr.closingBalance = cr.investmentShare + cr.returnAmount) ∧
      (∀ g, calculateClientReturns { db with monthlyReturns := g } c
          snap.monthlyReturnPercentage (endOfMonthDate monthDate.month) =
        calculateClientReturns db c snap.monthlyReturnPercentage
          (endOfMonthDate monthDate.month)) := by
  have hsnap : computeSnapshot db monthDate now = Except.ok (snapshotFor db monthDate now c) := by
    simp [computeSnapshot, snapshotFor, h]
  refine ⟨snapshotFor db monthDate now c,
    { db with monthlyReturns :=
        upsertMonthly db.monthlyReturns monthDate.month (snapshotFor db monthDate now c) },
    hsnap, ?_, ?_, ?_, ?_, ?_⟩
  · simp [calculateMonthlyReturns, hsnap]
  · simp [upsertMonthly]
  · rfl
  · intro cr hcr
    obtain ⟨cs, _, rfl⟩ := List.mem_map.mp hcr
    exact ⟨rfl, rfl⟩
  · intro g
    rfl

/-- Witness for C4 on the concrete state `dbW` for month 1. -/
theorem client_return_formula_witness :
    ∃ snap db2,
      computeSnapshot dbW ⟨1, 0⟩ ⟨2, 0⟩ = Except.ok snap ∧
      calculateMonthlyReturns dbW ⟨1, 0⟩ ⟨2, 0⟩ = Except.ok db2 ∧
      db2.monthlyReturns 1 = some snap := by
  obtain ⟨snap, db2, h1, h2, h3, _⟩ :=
    client_return_formula dbW ⟨1, 0⟩ ⟨2, 0⟩
      ⟨1000, [⟨1, "Alice", 500, 50⟩, ⟨2, "Bob", 500, 50⟩]⟩
      (by with_unfolding_all decide)
  exact ⟨snap, db2, h1, h2, h3⟩

/-- C6: conservation: for every month whose corpus resolves, the computed
snapshot's client `investmentShare`s sum exactly (in exact rational
arithmetic) to its `totalCorpus`. -/
theorem monthly_conservation (db : DB) (monthDate now : CalDate) (c : CorpusData)
    (h : getCorpusAtDate db (endOfMonthDate monthDate.month) = Except.ok c) :
    ∃ snap,
      computeSnapshot db monthDate now = Except.ok snap ∧
      (snap.clientReturns.map ClientReturn.investmentShare).sum = snap.totalCorpus := by
  have hsum := getCorpusAtDate_shareSum db (endOfMonthDate monthDate.month) c h
  have hsnap : computeSnapshot db monthDate now = Except.ok (snapshotFor db monthDate now c) := by
    simp [computeSnapshot, snapshotFor, h]
  refine ⟨snapshotFor db monthDate now c, hsnap, ?_⟩
  have hproj1 : (snapshotFor db monthDate now c).clientReturns =
      calculateClientReturns db c
        (calculateWeightedReturn (getPlatformReturns db (startOfMonthDate monthDate.month)
          (endOfMonthDate monthDate.month)))
        (endOfMonthDate monthDate.month) := rfl
  have hproj2 : (snapshotFor db monthDate now c).totalCorpus = c.totalCorpus := rfl
  rw [hproj1, hproj2, ← hsum]
  unfold calculateClientReturns shareTotalSum
  rw [List.map_map]
  rfl

/-- Witness for C6 on the concrete state `dbW` for month 1. -/
theorem monthly_conservation_witness :
    ∃ snap,
      computeSnapshot dbW ⟨1, 0⟩ ⟨2, 0⟩ = Except.ok snap ∧
      (snap.clientReturns.map ClientReturn.investmentShare).sum = snap.totalCorpus :=
  monthly_conservation dbW ⟨1, 0⟩ ⟨2, 0⟩
    ⟨1000, [⟨1, "Alice", 500, 50⟩, ⟨2, "Bob", 500, 50⟩]⟩
    (by with_unfolding_all decide)

/- ### Cascade lemmas -/

lemma computeSnapshot_stores_congr (db1 db2 : DB) (m now : CalDate)
    (hi : db1.investments = db2.investments) (hc : db1.clients = db2.clients)
    (hp : db1.platforms = db2.platforms) :
    computeSnapshot db1 m now = computeSnapshot db2 m now := by
  obtain ⟨i1, c1, p1, mr1⟩ := db1
  obtain ⟨i2, c2, p2, mr2⟩ := db2
  dsimp only at hi hc hp
  subst hi
  subst hc
  subst hp
  rfl

lemma computeSnapshot_ok (db : DB) (m now : CalDate)
    (h : ∀ inv ∈ db.investments, (findClient db.clients inv.clientId).isSome = true) :
    (computeSnapshot db m now).isOk = true := by
  obtain ⟨c, hc, -⟩ := getCorpusAtDate_spec db (endOfMonthDate m.month)
    (fun inv hi => h inv (List.mem_of_mem_filter hi))
  simp [computeSnapshot, hc, Except.isOk, Except.toBool]

/-- Characterization of the cascade loop: under per-month success, the loop
succeeds, leaves the three input stores untouched, and overwrites exactly
the months of the list with their (store-determined) snapshots. -/
lemma runMonths_char (now : CalDate) (months : List Int) :
    ∀ db : DB,
    (∀ m ∈ months, (computeSnapshot db ⟨m, 0⟩ now).isOk = true) →
    ∃ db2, runMonths db months now = Except.ok db2 ∧
      db2.investments = db.investments ∧ db2.clients = db.clients ∧
      db2.platforms = db.platforms ∧
      (∀ k, db2.monthlyReturns k =
        if k ∈ months then (computeSnapshot db ⟨k, 0⟩ now).toOption
        else db.monthlyReturns k) := by
  induction months with
  | nil =>
    intro db _
    exact ⟨db, rfl, rfl, rfl, rfl, fun k => by simp⟩
  | cons m rest ih =>
    intro db h
    have hm := h m (List.mem_cons_self m rest)
    cases hs : computeSnapshot db ⟨m, 0⟩ now with
    | error e =>
      rw [hs] at hm
      simp [Except.isOk, Except.toBool] at hm
    | ok snap =>
      have hcalc : calculateMonthlyReturns db ⟨m, 0⟩ now =
          Except.ok { db with monthlyReturns := upsertMonthly db.monthlyReturns m snap } := by
        simp [calculateMonthlyReturns, hs]
      have hcongr : ∀ k : Int,
          computeSnapshot { db with monthlyReturns := upsertMonthly db.monthlyReturns m snap }
            ⟨k, 0⟩ now = computeSnapshot db ⟨k, 0⟩ now :=
        fun k => computeSnapshot_stores_congr _ db ⟨k, 0⟩ now rfl rfl rfl
      obtain ⟨db2, hrun, hi, hc, hp, hmr⟩ :=
        ih { db with monthlyReturns := upsertMonthly db.monthlyReturns m snap }
          (fun m2 hm2 => by rw [hcongr]; exact h m2 (List.mem_cons_of_mem m hm2))
      refine ⟨db2, ?_, hi, hc, hp, ?_⟩
      · simp [runMonths, hcalc, hrun]
      · intro k
        rw [hmr k, hcongr k]
        by_cases hk : k ∈ rest
        · rw [if_pos hk, if_pos (List.mem_cons_of_mem m hk)]
        · rw [if_neg hk]
          show upsertMonthly db.monthlyReturns m snap k = _
          unfold upsertMonthly
          by_cases hkm : k = m
          · subst hkm
            rw [if_pos rfl, if_pos (List.mem_cons_self k rest), hs]
            rfl
          · rw [if_neg hkm, if_neg (by simp [hkm, hk])]

/-- Closed form of the month-enumeration loop. -/
lemma getMonthsLoop_closed (now : CalDate) :
    ∀ (n : Nat) (current : Int), (now.month + 1 - current).toNat = n →
    getMonthsLoop current now = (List.range n).map (fun i : Nat => current + (i : Int)) := by
  intro n
  induction n with
  | zero =>
    intro current hn
    have hfalse : ¬ (CalDate.leb ⟨current, 0⟩ now = true) := by
      simp only [CalDate.leb, decide_eq_true_eq]
      rintro (hlt | ⟨heq, -⟩) <;> omega
    rw [getMonthsLoop, dif_neg hfalse]
    simp
  | succ n ih =>
    intro current hn
    have hcond : CalDate.leb ⟨current, 0⟩ now = true := by
      simp only [CalDate.leb, decide_eq_true_eq]
      by_cases hlt : current < now.month
      · exact Or.inl hlt
      · exact Or.inr ⟨by omega, Nat.zero_le _⟩
    rw [getMonthsLoop, dif_pos hcond, ih (current + 1) (by omega),
      List.range_succ_eq_map, List.map_cons, List.map_map]
    congr 1
    · simp
    · apply List.map_congr_left
      intro i _
      show current + 1 + (i : Int) = current + ((i + 1 : Nat) : Int)
      push_cast
      ring

/-- C2: for every `fromDate <= now` (and resolving client references so
every month's calculation succeeds), the cascade enumerates exactly the
months from `fromDate`'s month through `now`'s month, ascending; it runs
the monthly calculation over that list in order (each enumerated month's
snapshot is written exactly once) and returns `monthsRecalculated` equal to
the number of enumerated months. -/
theorem recalculation_cascade_correct (db : DB) (fromDate now : CalDate)
    (hle : CalDate.leb fromDate now = true)
    (href : ∀ inv ∈ db.investments, (findClient db.clients inv.clientId).isSome = true) :
    getMonthsFromDate fromDate now =
      (List.range (now.month + 1 - fromDate.month).toNat).map
        (fun i : Nat => fromDate.month + (i : Int)) ∧
    (∀ m : Int, m ∈ getMonthsFromDate fromDate now ↔
      fromDate.month ≤ m ∧ m ≤ now.month) ∧
    (getMonthsFromDate fromDate now).Pairwise (· < ·) ∧
    ∃ db2, runMonths db (getMonthsFromDate fromDate now) now = Except.ok db2 ∧
      recalculateFromDate db fromDate now =
        Except.ok (db2, ⟨true, (getMonthsFromDate fromDate now).length⟩) ∧
      (getMonthsFromDate fromDate now).length = (now.month + 1 - fromDate.month).toNat ∧
      (∀ k, db2.monthlyReturns k =
        if k ∈ getMonthsFromDate fromDate now then (computeSnapshot db ⟨k, 0⟩ now).toOption
        else db.monthlyReturns k) := by
  have hmle : fromDate.month ≤ now.month := by
    simp only [CalDate.leb, decide_eq_true_eq] at hle
    rcases hle with hlt | ⟨heq, -⟩ <;> omega
  have hclosed := getMonthsLoop_closed now (now.month + 1 - fromDate.month).toNat
    fromDate.month rfl
  have hclosed2 : getMonthsFromDate fromDate now =
      (List.range (now.month + 1 - fromDate.month).toNat).map
        (fun i : Nat => fromDate.month + (i : Int)) := hclosed
  refine ⟨hclosed2, ?_, ?_, ?_⟩
  · intro m
    rw [hclosed2]
    simp only [List.mem_map, List.mem_range]
    constructor
    · rintro ⟨i, hi, rfl⟩
      omega
    · rintro ⟨h1, h2⟩
      exact ⟨(m - fromDate.month).toNat, by omega, by omega⟩
  · rw [hclosed2]
    refine List.Pairwise.map _ ?_ (List.pairwise_lt_range _)
    intro a b hab
    omega
  · obtain ⟨db2, hrun, -, -, -, hmr⟩ := runMonths_char now (getMonthsFromDate fromDate now) db
      (fun m _ => computeSnapshot_ok db ⟨m, 0⟩ now href)
    refine ⟨db2, hrun, ?_, ?_, hmr⟩
    · simp [recalculateFromDate, hrun]
    · rw [hclosed2]
      simp

/-- Witness for C2 on the concrete state `dbW`, recalculating from month 0
while the clock stands in month 2. -/
theorem recalculation_cascade_correct_witness :
    ∃ db2, runMonths dbW (getMonthsFromDate ⟨0, 7⟩ ⟨2, 3⟩) ⟨2, 3⟩ = Except.ok db2 ∧
      recalculateFromDate dbW ⟨0, 7⟩ ⟨2, 3⟩ =
        Except.ok (db2, ⟨true, (getMonthsFromDate ⟨0, 7⟩ ⟨2, 3⟩).length⟩) := by
  obtain ⟨-, -, -, db2, h1, h2, -⟩ :=
    recalculation_cascade_correct dbW ⟨0, 7⟩ ⟨2, 3⟩ (by decide) (by decide)
  exact ⟨db2, h1, h2⟩

lemma DB.ext4 (a b : DB) (hi : a.investments = b.investments) (hc : a.clients = b.clients)
    (hp : a.platforms = b.platforms) (hm : ∀ k, a.monthlyReturns k = b.monthlyReturns k) :
    a = b := by
  obtain ⟨i1, c1, p1, m1⟩ := a
  obtain ⟨i2, c2, p2, m2⟩ := b
  dsimp only at hi hc hp hm
  subst hi
  subst hc
  subst hp
  congr 1
  funext k
  exact hm k

/-- A successful cascade run implies every month's snapshot computation
succeeded on the input state. -/
lemma runMonths_ok_inv (now : CalDate) (months : List Int) :
    ∀ db db2 : DB, runMonths db months now = Except.ok db2 →
    ∀ m ∈ months, (computeSnapshot db ⟨m, 0⟩ now).isOk = true := by
  induction months with
  | nil =>
    intro db db2 _ m hm
    simp at hm
  | cons m0 rest ih =>
    intro db db2 h m hm
    cases hs : computeSnapshot db ⟨m0, 0⟩ now with
    | error e =>
      simp [runMonths, calculateMonthlyReturns, hs] at h
    | ok snap =>
      have hcalc : calculateMonthlyReturns db ⟨m0, 0⟩ now =
          Except.ok { db with monthlyReturns := upsertMonthly db.monthlyReturns m0 snap } := by
        simp [calculateMonthlyReturns, hs]
      simp only [runMonths, hcalc] at h
      rcases List.mem_cons.mp hm with rfl | hm2
      · rw [hs]
        rfl
      · have hthis := ih _ db2 h m hm2
        have hcongr := computeSnapshot_stores_congr
          { db with monthlyReturns := upsertMonthly db.monthlyReturns m0 snap } db
          ⟨m, 0⟩ now rfl rfl rfl
        rwa [hcongr] at hthis

/-- C9: idempotence of the cascade: when `recalculateFromDate` succeeds,
running it again on the resulting state (same clock, no intervening
mutation) succeeds and returns exactly the same state and result — every
stored MonthlyReturn document is unchanged by the second run. -/
theorem recalculate_idempotent (db : DB) (fromDate now : CalDate)
    (h : (recalculateFromDate db fromDate now).isOk = true) :
    ∃ p, recalculateFromDate db fromDate now = Except.ok p ∧
      recalculateFromDate p.1 fromDate now = Except.ok p := by
  cases hr : runMonths db (getMonthsFromDate fromDate now) now with
  | error e =>
    simp [recalculateFromDate, hr, Except.isOk, Except.toBool] at h
  | ok db1 =>
    have hok := runMonths_ok_inv now (getMonthsFromDate fromDate now) db db1 hr
    obtain ⟨db1b, hrun1, hi1, hc1, hp1, hmr1⟩ :=
      runMonths_char now (getMonthsFromDate fromDate now) db hok
    have hdb1 : db1b = db1 := by
      rw [hr] at hrun1
      exact ((Except.ok.injEq _ _).mp hrun1).symm
    subst hdb1
    have hok2 : ∀ m ∈ getMonthsFromDate fromDate now,
        (computeSnapshot db1b ⟨m, 0⟩ now).isOk = true := fun m hm => by
      rw [computeSnapshot_stores_congr db1b db ⟨m, 0⟩ now hi1 hc1 hp1]
      exact hok m hm
    obtain ⟨db2, hrun2, hi2, hc2, hp2, hmr2⟩ :=
      runMonths_char now (getMonthsFromDate fromDate now) db1b hok2
    have hdb2 : db2 = db1b := by
      refine DB.ext4 db2 db1b hi2 hc2 hp2 (fun k => ?_)
      rw [hmr2 k, computeSnapshot_stores_congr db1b db ⟨k, 0⟩ now hi1 hc1 hp1, hmr1 k]
      by_cases hk : k ∈ getMonthsFromDate fromDate now <;> simp [hk]
    subst hdb2
    refine ⟨(db2, ⟨true, (getMonthsFromDate fromDate now).length⟩), ?_, ?_⟩
    · simp [recalculateFromDate, hr]
    · simp [recalculateFromDate, hrun2]

/-- Witness for C9 on the concrete state `dbW`. -/
theorem recalculate_idempotent_witness :
    ∃ p, recalculateFromDate dbW ⟨0, 7⟩ ⟨2, 3⟩ = Except.ok p ∧
      recalculateFromDate p.1 ⟨0, 7⟩ ⟨2, 3⟩ = Except.ok p :=
  recalculate_idempotent dbW ⟨0, 7⟩ ⟨2, 3⟩ (by with_unfolding_all decide)

/-- C10: the computed snapshot depends only on the Investment, client and
PlatformInvestment stores: replacing the pre-existing MonthlyReturn
documents arbitrarily changes nothing (the previous closing balance is
fetched but discarded), and consequently a cascade over any permutation of
its months succeeds and stores exactly the same state. -/
theorem snapshot_noninterference (db : DB) (g : Int → Option MonthlyReturn)
    (monthDate now : CalDate) (months1 months2 : List Int)
    (hperm : months1.Perm months2)
    (hok : ∀ m ∈ months1, (computeSnapshot db ⟨m, 0⟩ now).isOk = true) :
    computeSnapshot { db with monthlyReturns := g } monthDate now =
      computeSnapshot db monthDate now ∧
    ∃ dbA dbB, runMonths db months1 now = Except.ok dbA ∧
      runMonths db months2 now = Except.ok dbB ∧ dbA = dbB := by
  refine ⟨computeSnapshot_stores_congr _ db monthDate now rfl rfl rfl, ?_⟩
  have hok2 : ∀ m ∈ months2, (computeSnapshot db ⟨m, 0⟩ now).isOk = true :=
    fun m hm => hok m (hperm.mem_iff.mpr hm)
  obtain ⟨dbA, hrunA, hiA, hcA, hpA, hmrA⟩ := runMonths_char now months1 db hok
  obtain ⟨dbB, hrunB, hiB, hcB, hpB, hmrB⟩ := runMonths_char now months2 db hok2
  refine ⟨dbA, dbB, hrunA, hrunB, DB.ext4 dbA dbB (hiA.trans hiB.symm)
    (hcA.trans hcB.symm) (hpA.trans hpB.symm) (fun k => ?_)⟩
  rw [hmrA k, hmrB k]
  by_cases hk : k ∈ months1
  · rw [if_pos hk, if_pos (hperm.mem_iff.mp hk)]
  · rw [if_neg hk, if_neg (fun hx => hk (hperm.mem_iff.mpr hx))]

/-- Witness for C10 on the concrete state `dbW`, with the MonthlyReturn
store replaced by a constant junk document and the two-month cascade run in
both orders. -/
theorem snapshot_noninterference_witness :
    computeSnapshot { dbW with monthlyReturns := fun _ => some ⟨0, 1, 2, 3, [], [], ⟨0, 0⟩⟩ }
        ⟨1, 0⟩ ⟨2, 3⟩ =
      computeSnapshot dbW ⟨1, 0⟩ ⟨2, 3⟩ ∧
    ∃ dbA dbB, runMonths dbW [0, 1] ⟨2, 3⟩ = Except.ok dbA ∧
      runMonths dbW [1, 0] ⟨2, 3⟩ = Except.ok dbB ∧ dbA = dbB :=
  snapshot_noninterference dbW (fun _ => some ⟨0, 1, 2, 3, [], [], ⟨0, 0⟩⟩) ⟨1, 0⟩ ⟨2, 3⟩
    [0, 1] [1, 0] (by decide) (by with_unfolding_all decide)

/-- C3: for a week lacking a stored snapshot, when both bounding rows exist
the interpolator appends exactly the row with
`openingValue = before.closingValue` and `closingValue = before.closingValue
+ (after.openingValue - before.closingValue) / ceil((after.weekStartDate -
before.weekEndDate) / 7 days)`, marked interpolated with no `enteredBy`;
when either bound is missing no row is created; and in the week1=100 /
week4=130 scenario the walk fills week 2 with 110 and week 3 with 120,
which lie on the straight line between the bounds. -/
theorem weekly_interpolation_correct :
    (∀ (store existingWeeks : List WeekRow) (pid : Nat) (cur : Int) (before after : WeekRow),
      existingWeeks.any (fun w => w.weekStartDate == cur) = false →
      findBefore store pid cur = some before →
      findAfter store pid cur = some after →
      interpStep store existingWeeks pid cur = store ++ [interpolatedRow pid cur before after]) ∧
    (∀ (pid : Nat) (cur : Int) (before after : WeekRow),
      (interpolatedRow pid cur before after).openingValue = before.closingValue ∧
      (interpolatedRow pid cur before after).closingValue =
        before.closingValue + (after.openingValue - before.closingValue) /
          ((ceilWeeks (after.weekStartDate - before.weekEndDate) : Int) : ℚ) ∧
      (interpolatedRow pid cur before after).isInterpolated = true ∧
      (interpolatedRow pid cur before after).enteredBy = none) ∧
    (∀ (store existingWeeks : List WeekRow) (pid : Nat) (cur : Int),
      existingWeeks.any (fun w => w.weekStartDate == cur) = false →
      (findBefore store pid cur = none ∨ findAfter store pid cur = none) →
      interpStep store existingWeeks pid cur = store) ∧
    interpolatePlatform scenStore 1 0 21 =
      scenStore ++
        [⟨1, 7, 13, 100, 110, 10, 10, true, none, some "Auto-interpolated"⟩,
         ⟨1, 14, 20, 110, 120, 100 / 11, 10, true, none, some "Auto-interpolated"⟩] ∧
    (110 : ℚ) = 100 + (130 - 100) * (1 / 3) ∧
    (120 : ℚ) = 100 + (130 - 100) * (2 / 3) := by
  refine ⟨?_, ?_, ?_, ?_, by norm_num, by norm_num⟩
  · intro store existingWeeks pid cur before after h1 h2 h3
    simp [interpStep, h1, h2, h3]
  · intro pid cur before after
    exact ⟨rfl, rfl, rfl, rfl⟩
  · intro store existingWeeks pid cur h1 h2
    rcases h2 with h2 | h2
    · simp [interpStep, h1, h2]
    · cases hb : findBefore store pid cur with
      | none => simp [interpStep, h1, hb]
      | some b => simp [interpStep, h1, hb, h2]
  · with_unfolding_all decide

/-- Witness for C3: one step of the walk on the scenario store, with the
bounding rows found concretely. -/
theorem weekly_interpolation_correct_witness :
    interpStep scenStore scenStore 1 7 =
      scenStore ++ [interpolatedRow 1 7 ⟨1, 0, 6, 100, 100, 0, 0, false, some 9, none⟩
        ⟨1, 21, 27, 130, 130, 0, 0, false, some 9, none⟩] :=
  weekly_interpolation_correct.1 scenStore scenStore 1 7
    ⟨1, 0, 6, 100, 100, 0, 0, false, some 9, none⟩
    ⟨1, 21, 27, 130, 130, 0, 0, false, some 9, none⟩
    (by with_unfolding_all decide) (by with_unfolding_all decide)
    (by with_unfolding_all decide)

/-- C8 (code bug): the route passes the weekly-derived percentage as a
second argument, but `calculateMonthlyReturns` declares a single parameter,
so JavaScript discards it: on `dbW` in month 0 with supplied percentage 10,
the stored snapshot carries the platform-derived weighted return 6, not the
supplied 10. -/
theorem precomputed_pct_ignored :
    Except.map (fun db2 => (db2.monthlyReturns 0).map MonthlyReturn.monthlyReturnPercentage)
      (calculateMonthlyReturnsCall2 dbW ⟨0, 15⟩ 10 ⟨1, 0⟩) = Except.ok (some 6) ∧
    calculateWeightedReturn (getPlatformReturns dbW (startOfMonthDate 0) (endOfMonthDate 0)) =
      6 ∧
    (6 : ℚ) ≠ 10 := by
  refine ⟨?_, ?_, by norm_num⟩
  · with_unfolding_all decide
  · with_unfolding_all decide

end TradingDashboard
